import Mathlib

/-!
Shallow embedding of the playback core of the repository:
the iterable playback state machine (`IterablePlayer`) and the problem
registry (`PlayerProblemManager`).

Modelling conventions:
* `Nat` is a nanosecond count (`Nat`); `@foxglove/rostime` values are
  normalized sec/nsec pairs whose total order and arithmetic coincide with
  the nanosecond encoding (`compare` is `<`/`=`, `add` is `+`,
  `clampTime` is `max lo (min t hi)`).
* A JavaScript `Map` is an association list with unique keys; `set` on an
  existing key updates the entry in place (JS `Map` keeps the original
  insertion position), otherwise appends.
* Wall-clock quantities (`performance.now()`, the exponentially smoothed
  `rangeMillis` and its float `fromMillis` conversion) are parameters of
  `tick`, since they are time- and float-dependent; everything downstream
  of the computed nanosecond range is modelled exactly.
* Observable calls to collaborators (metrics collector, block loader,
  the debounced emit queue, `#setState` requests) are recorded as a list
  of `Effect`s returned alongside the new player value.
* Fallible code returns `Except String`; a thrown `Error(msg)` is
  `.error msg`.
-/

namespace NewStudio

/-- `clampTime(time, start, end)` from `@foxglove/rostime`. -/
def clampTime (t lo hi : Nat) : Nat := max lo (min t hi)

/-- A message event `{topic, schemaName, receiveTime, message, sizeInBytes}`;
the decoded payload is opaque (`payload`). -/
structure MessageEvent where
  topic : String
  schemaName : String
  receiveTime : Nat
  payload : Nat
  sizeInBytes : Nat
deriving DecidableEq, Repr

/-- Problem severities. -/
inductive Severity where
  | error
  | warn
  | info
deriving DecidableEq, Repr

/-- A player problem `{severity, message, tip?}`. -/
structure PlayerProblem where
  severity : Severity
  message : String
  tip : Option String := none
deriving DecidableEq, Repr

/-- `IteratorResult`: tagged variant of the forward iterator's results. -/
inductive IteratorResult where
  | messageEvent (msgEvent : MessageEvent)
  | problem (connectionId : Nat) (problem : PlayerProblem)
  | stamp (stamp : Nat)
deriving DecidableEq, Repr

/-- The message event held by an iterator result, if any. -/
def msgOf : IteratorResult → Option MessageEvent
  | .messageEvent m => some m
  | _ => none

/-- The message events of a stretch of the iterator, in order. -/
def streamMsgs (stream : List IteratorResult) : List MessageEvent :=
  stream.filterMap msgOf

/-- Ordering constraint between two iterator results (earlier one first):
message times are nondecreasing, and a stamp is a watermark that every
later message is strictly past.  Problems are unordered. -/
def resLE : IteratorResult → IteratorResult → Prop
  | .stamp s, .messageEvent m => s < m.receiveTime
  | .stamp s, .stamp s2 => s ≤ s2
  | .messageEvent m, .messageEvent m2 => m.receiveTime ≤ m2.receiveTime
  | .messageEvent m, .stamp s => m.receiveTime ≤ s
  | _, _ => True

instance (a b : IteratorResult) : Decidable (resLE a b) := by
  cases a with
  | messageEvent m =>
    cases b with
    | messageEvent m2 => exact inferInstanceAs (Decidable (m.receiveTime ≤ m2.receiveTime))
    | problem cid pr => exact .isTrue trivial
    | stamp s => exact inferInstanceAs (Decidable (m.receiveTime ≤ s))
  | problem cid pr => exact .isTrue trivial
  | stamp s =>
    cases b with
    | messageEvent m => exact inferInstanceAs (Decidable (s < m.receiveTime))
    | problem cid pr => exact .isTrue trivial
    | stamp s2 => exact inferInstanceAs (Decidable (s ≤ s2))

/- ### JavaScript `Map` as an association list -/

/-- JS `map.set(k, v)`: update in place when the key exists, else append. -/
def jsMapInsert {β : Type} (k : String) (v : β) (m : List (String × β)) :
    List (String × β) :=
  if m.any (fun e => e.1 = k) then
    m.map (fun e => if e.1 = k then (k, v) else e)
  else
    m ++ [(k, v)]

/-- JS `new Map(entries)`. -/
def jsMapOfList {β : Type} (l : List (String × β)) : List (String × β) :=
  l.foldl (fun m e => jsMapInsert e.1 e.2 m) []

/-- JS `map.get(k)` (first entry with the key). -/
def mapLookup {β : Type} (k : String) (m : List (String × β)) : Option β :=
  (m.find? (fun e => e.1 = k)).map (·.2)

/-- The keys of an association-list map are pairwise distinct. -/
def keysNodup {β : Type} (m : List (String × β)) : Prop :=
  (m.map (·.1)).Nodup

/-- Lodash `isEqual` on two `Map`s: equal size and every entry of the first
found (by key, with equal value) in the second. -/
def isEqualMap {β : Type} [DecidableEq β] (a b : List (String × β)) : Bool :=
  a.length = b.length && a.all (fun e => mapLookup e.1 b = some e.2)

/-- Two association-list maps denote the same partial function. -/
def mapEquiv {β : Type} (a b : List (String × β)) : Prop :=
  ∀ k, mapLookup k a = mapLookup k b

/- ### PlayerProblemManager -/

/-- The array returned by `problems()`.  `allocId` is a fresh allocation
counter modelling JavaScript reference identity: two `ProblemArray`s are
the same array object exactly when they are equal (same `allocId`). -/
structure ProblemArray where
  allocId : Nat
  vals : List PlayerProblem
deriving DecidableEq, Repr

/-- `PlayerProblemManager`: problems keyed by id plus the cached
`problems()` array (`undefined` = `none`). -/
structure PlayerProblemManager where
  problemsById : List (String × PlayerProblem)
  cachedProblems : Option ProblemArray
  nextAllocId : Nat
deriving DecidableEq, Repr

namespace PlayerProblemManager

/-- A fresh manager. -/
def new : PlayerProblemManager := ⟨[], none, 0⟩

/-- `problems()`: `this.#problems ??= Array.from(this.#problemsById.values())`.
Returns the (possibly freshly allocated) array and the updated manager. -/
def problems (m : PlayerProblemManager) : ProblemArray × PlayerProblemManager :=
  match m.cachedProblems with
  | some a => (a, m)
  | none =>
    let a : ProblemArray := ⟨m.nextAllocId, m.problemsById.map (·.2)⟩
    (a, { m with cachedProblems := some a, nextAllocId := m.nextAllocId + 1 })

/-- `addProblem(id, problem)`: store under the id and invalidate the cache. -/
def addProblem (id : String) (pr : PlayerProblem) (m : PlayerProblemManager) :
    PlayerProblemManager :=
  { m with problemsById := jsMapInsert id pr m.problemsById, cachedProblems := none }

/-- `hasProblem(id)`. -/
def hasProblem (id : String) (m : PlayerProblemManager) : Bool :=
  m.problemsById.any (fun e => e.1 = id)

/-- `removeProblem(id)`: invalidates the cache only when something was
actually deleted. -/
def removeProblem (id : String) (m : PlayerProblemManager) :
    Bool × PlayerProblemManager :=
  if m.problemsById.any (fun e => e.1 = id) then
    (true, { m with problemsById := m.problemsById.filter (fun e => ¬(e.1 = id)),
                    cachedProblems := none })
  else
    (false, m)

/-- `removeProblems(predicate)`: deletes every matching entry; invalidates
the cache only when something was deleted. -/
def removeProblems (pred : String → PlayerProblem → Bool) (m : PlayerProblemManager) :
    Bool × PlayerProblemManager :=
  if m.problemsById.any (fun e => pred e.1 e.2) then
    (true, { m with problemsById := m.problemsById.filter (fun e => !pred e.1 e.2),
                    cachedProblems := none })
  else
    (false, m)

/-- `clear()`. -/
def clear (m : PlayerProblemManager) : PlayerProblemManager :=
  { m with problemsById := [], cachedProblems := none }

/-- Well-formedness: the cached array, when present, holds exactly the
registered problems.  Holds for every reachable manager (every mutation
either clears the cache or leaves both sides untouched). -/
def WF (m : PlayerProblemManager) : Prop :=
  match m.cachedProblems with
  | none => True
  | some a => a.vals = m.problemsById.map (·.2)

instance (m : PlayerProblemManager) : Decidable (WF m) := by
  unfold WF
  cases m.cachedProblems <;> infer_instance

end PlayerProblemManager

/- ### Player data model -/

/-- `PreloadType` of a subscription: `"full" | "partial"`. -/
inductive PreloadType where
  | full
  | partialLoad
deriving DecidableEq, Repr

/-- `SubscribePayload`: topic plus optional preload type. -/
structure SubscribePayload where
  topic : String
  preloadType : Option PreloadType := none
deriving DecidableEq, Repr

/-- `TopicSelection`: `Map<topic name, SubscribePayload>`. -/
abbrev TopicSelection := List (String × SubscribePayload)

/-- A provider topic `{name, schemaName}`. -/
structure Topic where
  name : String
  schemaName : String
deriving DecidableEq, Repr

/-- `IterablePlayerState`: the states of the playback state machine.
(`initializing` stands for the source state named "initialize".) -/
inductive PName where
  | preinit
  | initializing
  | startPlay
  | idle
  | seekBackfill
  | play
  | close
  | resetIter
deriving DecidableEq, Repr

/-- `PlayerPresence`. -/
inductive Presence where
  | initializing
  | buffering
  | present
  | error
deriving DecidableEq, Repr

/-- Observable calls the player makes on its collaborators. -/
inductive Effect where
  | metricsPlay (speed : ℚ)
  | metricsPause
  | metricsSeek (t : Nat)
  | metricsSetSubscriptions (subs : List SubscribePayload)
  | queueEmitState
  | transition (s : PName)
  | blockLoaderSetTopics (sel : TopicSelection)
deriving DecidableEq, Repr

/-- The mutable state of `IterablePlayer` relevant to the playback state
machine (private `#...` fields of the class). -/
structure Player where
  state : PName := .preinit
  nextState : Option PName := none
  isPlaying : Bool := false
  speed : ℚ := 1
  start : Option Nat := none
  endTime : Option Nat := none
  untilTime : Option Nat := none
  currentTime : Option Nat := none
  seekTarget : Option Nat := none
  lastTickMillis : Option ℚ := none
  lastRangeMillis : Option ℚ := none
  lastStamp : Option Nat := none
  lastMessageEvent : Option MessageEvent := none
  messages : List MessageEvent := []
  subscriptions : List SubscribePayload := []
  allTopics : TopicSelection := []
  preloadTopics : TopicSelection := []
  presence : Presence := .initializing
  hasError : Bool := false
  hasBlockLoader : Bool := false
  problemManager : PlayerProblemManager := .new
deriving DecidableEq, Repr

/-- `#setState(newState)`: record the request unless a `close` request is
already pending — nothing may override closing the player. -/
def setStateReq (s : PName) (p : Player) : Player :=
  if p.nextState = some .close then p else { p with nextState := some s }

/-- One iteration of the `#runState` loop: consume the pending request and
make it the running state (`#state = #nextState; #nextState = undefined`). -/
def runStateStep (p : Player) : Player :=
  match p.nextState with
  | some s => { p with state := s, nextState := none }
  | none => p

/-- An event of the transition-request subsystem: a `#setState` call or one
iteration of the `#runState` loop. -/
inductive SMEvent where
  | request (s : PName)
  | deq
deriving DecidableEq, Repr

/-- Apply one transition-subsystem event. -/
def smStep : SMEvent → Player → Player
  | .request s, p => setStateReq s p
  | .deq, p => runStateStep p

/-- Run a trace of transition-subsystem events. -/
def smRun (evs : List SMEvent) (p : Player) : Player :=
  evs.foldl (fun q ev => smStep ev q) p

/- ### Player command methods -/

/-- `pausePlayback()`. -/
def pausePlayback (p : Player) : Player × List Effect :=
  if p.isPlaying = false then (p, [])
  else
    let p1 := { p with lastTickMillis := none, isPlaying := false,
                       untilTime := none, lastRangeMillis := none }
    if p1.state = .play then
      (setStateReq .idle p1, [.metricsPause, .transition .idle])
    else
      (p1, [.metricsPause, .queueEmitState])

/-- `#startPlayImpl(opt)` — the body of `startPlayback()` (`opt = none`) and
`playUntil(t)` (`opt = some t`). -/
def startPlayImpl (opt : Option Nat) (p : Player) :
    Except String (Player × List Effect) :=
  if p.isPlaying = true ∨ p.untilTime ≠ none ∨ p.start = none ∨ p.endTime = none then
    .ok (p, [])
  else
    match p.start, p.endTime with
    | some s, some e =>
      let withUntil : Except String Player :=
        match opt with
        | some u =>
          match p.currentTime with
          | some c =>
            if u ≤ c then
              .error "Invariant: playUntil time must be after the current time"
            else
              .ok { p with untilTime := some (clampTime u s e) }
          | none => .ok { p with untilTime := some (clampTime u s e) }
        | none => .ok p
      match withUntil with
      | .error msg => .error msg
      | .ok p1 =>
        let p2 := { p1 with isPlaying := true }
        if p2.state = .idle ∧ (p2.nextState = none ∨ p2.nextState = some .idle) then
          .ok (setStateReq .play p2, [.metricsPlay p.speed, .transition .play])
        else
          .ok (p2, [.metricsPlay p.speed, .queueEmitState])
    | _, _ => .ok (p, [])

/-- `startPlayback()`. -/
def startPlayback (p : Player) : Except String (Player × List Effect) :=
  startPlayImpl none p

/-- `playUntil(time)`. -/
def playUntil (t : Nat) (p : Player) : Except String (Player × List Effect) :=
  startPlayImpl (some t) p

/-- `seekPlayback(time)`. -/
def seekPlayback (time : Nat) (p : Player) :
    Except String (Player × List Effect) :=
  if p.state = .preinit ∨ p.state = .initializing then
    .ok ({ p with seekTarget := some time }, [])
  else
    match p.start, p.endTime with
    | some s, some e =>
      let targetTime := clampTime time s e
      if p.seekTarget = some targetTime then
        .ok (p, [])
      else if p.currentTime = some targetTime then
        .ok (p, [])
      else
        let p1 := { p with seekTarget := some targetTime, untilTime := none,
                           lastTickMillis := none, lastRangeMillis := none }
        .ok (setStateReq .seekBackfill p1, [.metricsSeek targetTime, .transition .seekBackfill])
    | _, _ => .error "invariant: initialized but no start/end set"

/-- The `allTopics` map derived from a `setSubscriptions` argument. -/
def deriveAllTopics (subs : List SubscribePayload) : TopicSelection :=
  jsMapOfList (subs.map fun s => (s.topic, s))

/-- The `preloadTopics` map derived from a `setSubscriptions` argument
(subscriptions with `preloadType === "full"`). -/
def derivePreloadTopics (subs : List SubscribePayload) : TopicSelection :=
  jsMapOfList (subs.filterMap fun s =>
    if s.preloadType = some .full then some (s.topic, s) else none)

/-- `setSubscriptions(newSubscriptions)`. -/
def setSubscriptions (newSubs : List SubscribePayload) (p : Player) :
    Player × List Effect :=
  let p1 := { p with subscriptions := newSubs }
  let allTopics := deriveAllTopics newSubs
  let preloadTopics := derivePreloadTopics newSubs
  if isEqualMap allTopics p1.allTopics = true ∧ isEqualMap preloadTopics p1.preloadTopics = true then
    (p1, [.metricsSetSubscriptions newSubs])
  else
    let p2 := { p1 with allTopics := allTopics, preloadTopics := preloadTopics }
    let effs := [Effect.metricsSetSubscriptions newSubs] ++
      (if p2.hasBlockLoader then [Effect.blockLoaderSetTopics preloadTopics] else [])
    if p2.state = .idle ∨ p2.state = .seekBackfill ∨ p2.state = .play ∨ p2.state = .startPlay then
      if p2.isPlaying = false then
        match p2.currentTime with
        | some ct =>
          let p3 := { p2 with seekTarget := some (p2.seekTarget.getD ct),
                              untilTime := none, lastTickMillis := none,
                              lastRangeMillis := none }
          (setStateReq .seekBackfill p3, effs ++ [.transition .seekBackfill])
        | none => (p2, effs)
      else (p2, effs)
    else (p2, effs)

/-- Apply a sequence of `setSubscriptions` calls. -/
def applyCalls (calls : List (List SubscribePayload)) (p : Player) : Player :=
  calls.foldl (fun q subs => (setSubscriptions subs q).1) p

/-- `setParameter(key, value)` — unsupported on an iterable source. -/
def setParameter (_key : String) (_value : Nat) (_p : Player) : Except String Unit :=
  .error "Parameter editing is not supported by this data source"

/-- `publish(payload)` — unsupported on an iterable source. -/
def publish (_payload : Nat) (_p : Player) : Except String Unit :=
  .error "Publishing is not supported by this data source"

/-- `callService()` — unsupported on an iterable source. -/
def callService (_p : Player) : Except String Unit :=
  .error "Service calls are not supported by this data source"

/- ### `#stateInitialize`'s topic dedup -/

/-- The warning pushed for a topic whose name was already registered. -/
def dupTopicProblem (existing t : Topic) : PlayerProblem :=
  { severity := .warn,
    message := "Inconsistent datatype for topic: " ++ t.name,
    tip := some ("Topic " ++ t.name ++ " has messages with multiple datatypes: " ++
      existing.schemaName ++ ", " ++ t.schemaName ++
      ". This may result in errors during visualization.") }

/-- The dedup loop of `#stateInitialize` over the source's topic list:
`uniq` is the `uniqueTopics` map (values in insertion order), `probs` the
problems pushed so far. -/
def dedupGo : List Topic → List Topic → List PlayerProblem →
    List Topic × List PlayerProblem
  | [], uniq, probs => (uniq, probs)
  | t :: rest, uniq, probs =>
    match uniq.find? (fun u => u.name = t.name) with
    | some existing => dedupGo rest uniq (probs ++ [dupTopicProblem existing t])
    | none => dedupGo rest (uniq ++ [t]) probs

/-- Topic dedup of `#stateInitialize`: first-seen topic per name wins; a
warning problem is pushed for every later duplicate.  The loop body has no
throwing operation, so this function is total. -/
def dedupTopics (topics : List Topic) : List Topic × List PlayerProblem :=
  dedupGo topics [] []

/- ### `#tick` -/

/-- Result of the read loop inside `#tick`: the batch collected so far, the
iterator results not yet consumed, the new `#lastStamp` / `#lastMessageEvent`,
and the problems added (keyed `connid-<id>`). -/
structure LoopOut where
  newLastStamp : Option Nat
  newLastMessageEvent : Option MessageEvent
  msgs : List MessageEvent
  probs : List (String × PlayerProblem)
  rest : List IteratorResult
deriving DecidableEq, Repr

/-- The read loop of `#tick`: pull from the iterator until a result is past
the tick end time `endT` (buffer it), a stamp at-or-past `endT` arrives
(record it), or the iterator is exhausted. -/
def tickLoop (endT : Nat) : List IteratorResult → List MessageEvent →
    List (String × PlayerProblem) → LoopOut
  | [], acc, probs => ⟨none, none, acc, probs, []⟩
  | r :: rest, acc, probs =>
    match r with
    | .problem cid prob =>
      tickLoop endT rest acc (probs ++ [("connid-" ++ toString cid, prob)])
    | .stamp st =>
      if endT ≤ st then ⟨some st, none, acc, probs, rest⟩
      else tickLoop endT rest acc probs
    | .messageEvent m =>
      if endT < m.receiveTime then ⟨none, some m, acc, probs, rest⟩
      else tickLoop endT rest (acc ++ [m]) probs

/-- Shared tail of every `#tick` exit path that emits: set `#currentTime`
to the window end, set the outgoing batch, queue an emit, and pause when
the `playUntil` bound has been reached. -/
def tickFinish (endT : Nat) (msgs : List MessageEvent) (p : Player) :
    Player × List Effect :=
  let p1 := { p with currentTime := some endT, messages := msgs }
  match p1.untilTime with
  | some u =>
    if u ≤ endT then
      let pe := pausePlayback p1
      (pe.1, [Effect.queueEmitState] ++ pe.2)
    else (p1, [Effect.queueEmitState])
  | none => (p1, [Effect.queueEmitState])

/-- The iterator read phase of `#tick` (after the `#lastStamp` /
`#lastMessageEvent` short-circuits): `acc` holds the buffered message
carried into this tick.  Throws when the playback iterator is gone. -/
def tickRead (endT : Nat) (acc : List MessageEvent) (p : Player)
    (iter : Option (List IteratorResult)) :
    Except String (Player × Option (List IteratorResult) × List Effect) :=
  match iter with
  | none => .error "Invariant. this._playbackIterator is undefined."
  | some stream =>
    let out := tickLoop endT stream acc []
    let p1 := { p with
      lastStamp := out.newLastStamp,
      lastMessageEvent := out.newLastMessageEvent,
      problemManager := out.probs.foldl
        (fun pm e => PlayerProblemManager.addProblem e.1 e.2 pm) p.problemManager,
      presence := Presence.present }
    let pe := tickFinish endT out.msgs p1
    .ok (pe.1, some out.rest, pe.2)

/-- The `#lastMessageEvent` short-circuit of `#tick`, then the read loop. -/
def tickMain (endT : Nat) (p : Player) (iter : Option (List IteratorResult)) :
    Except String (Player × Option (List IteratorResult) × List Effect) :=
  match p.lastMessageEvent with
  | some m =>
    if endT < m.receiveTime then
      let pe := tickFinish endT [] p
      .ok (pe.1, iter, pe.2)
    else
      tickRead endT [m] { p with lastMessageEvent := none } iter
  | none => tickRead endT [] p iter

/-- `#tick()`.  `tms` is `performance.now()` at tick start, `rms` the
smoothed `rangeMillis`, and `rng` the nanosecond range `fromMillis(rms)`
actually added to `#currentTime`; the three are parameters because they
come from wall clocks and float arithmetic.  `iter` is the contents of
`#playbackIterator` (`none` when the iterator is undefined); the returned
option is what remains of it. -/
def tick (tms rms : ℚ) (rng : Nat) (p : Player)
    (iter : Option (List IteratorResult)) :
    Except String (Player × Option (List IteratorResult) × List Effect) :=
  if p.isPlaying = false then .ok (p, iter, [])
  else
    match p.start, p.endTime with
    | some s, some e =>
      let p0 := { p with lastTickMillis := some tms, lastRangeMillis := some rms }
      match p0.currentTime with
      | none => .error "Invariant: Tried to play with no current time."
      | some cur =>
        let endT := clampTime (cur + rng) s (p0.untilTime.getD e)
        match p0.lastStamp with
        | some st =>
          if endT ≤ st then
            let pe := tickFinish endT [] p0
            .ok (pe.1, iter, pe.2)
          else
            tickMain endT { p0 with lastStamp := none } iter
        | none => tickMain endT p0 iter
    | _, _ => .error "Invariant: start & end should be set before tick()"

/-- A concrete initialized, idle player used by witnesses. -/
def examplePlayer : Player :=
  { state := .idle, nextState := none, isPlaying := false, speed := 1,
    start := some 0, endTime := some 1000000000, currentTime := some 500,
    presence := .present }

/-! ## Theorems -/

/-- C7: `pausePlayback()` on a player that is not playing returns before any
observable action: no metrics-collector pause event, no state-transition
request, no queued emission, and the player state is bit-for-bit unchanged. -/
theorem pausePlayback_idempotent (p : Player) (h : p.isPlaying = false) :
    pausePlayback p = (p, []) := by
  unfold pausePlayback
  rw [if_pos h]

theorem pausePlayback_idempotent_witness :
    pausePlayback examplePlayer = (examplePlayer, []) :=
  pausePlayback_idempotent examplePlayer rfl

/-- C9: on the read-only iterable source, `setParameter`, `publish` and
`callService` throw synchronously with a descriptive message, whatever the
player's state. -/
theorem unsupported_operations_throw (p : Player) (k : String) (v pay : Nat) :
    setParameter k v p =
      .error "Parameter editing is not supported by this data source" ∧
    publish pay p = .error "Publishing is not supported by this data source" ∧
    callService p = .error "Service calls are not supported by this data source" :=
  ⟨rfl, rfl, rfl⟩

/-- C3: once the player is initialized (past `preinit`/`initialize`),
`seekPlayback(t)` with the clamped target equal to the current time — or to
an already-pending seek target — is a no-op: no backfill request, no metrics
event, no state transition, and the player state is unchanged. -/
theorem seekPlayback_noop (t : Nat) (p : Player) (s e : Nat)
    (h1 : p.state ≠ .preinit) (h2 : p.state ≠ .initializing)
    (hs : p.start = some s) (he : p.endTime = some e)
    (hat : p.currentTime = some (clampTime t s e) ∨
      p.seekTarget = some (clampTime t s e)) :
    seekPlayback t p = .ok (p, []) := by
  have hpre : ¬(p.state = .preinit ∨ p.state = .initializing) := by
    rintro (h | h)
    exacts [h1 h, h2 h]
  unfold seekPlayback
  rw [if_neg hpre, hs, he]
  rcases hat with hcur | hst
  · by_cases hst' : p.seekTarget = some (clampTime t s e)
    · simp [hst']
    · simp [hst', hcur]
  · simp [hst]

theorem seekPlayback_noop_witness :
    seekPlayback 500 examplePlayer = .ok (examplePlayer, []) :=
  seekPlayback_noop 500 examplePlayer 0 1000000000
    (by decide) (by decide) rfl rfl (Or.inl (by decide))

/-- C10: `#startPlayImpl` — `playUntil(t)` with `t` at-or-before the current
time (and the initial guard passed) throws the invariant error instead of
pausing or being ignored; and `startPlayback()`/`playUntil` called while
already playing, with an `untilTime` pending, or before `start`/`end` are
set, silently returns with no state change and no play metrics event. -/
theorem startPlayImpl_guards (p : Player) (t : Nat) (opt : Option Nat)
    (s e c : Nat) :
    (p.isPlaying = false → p.untilTime = none → p.start = some s →
      p.endTime = some e → p.currentTime = some c → t ≤ c →
      startPlayImpl (some t) p =
        .error "Invariant: playUntil time must be after the current time") ∧
    (p.isPlaying = true ∨ p.untilTime ≠ none ∨ p.start = none ∨ p.endTime = none →
      startPlayImpl opt p = .ok (p, [])) := by
  constructor
  · intro hp hu hs he hc htc
    unfold startPlayImpl
    rw [if_neg (by simp [hp, hu, hs, he]), hs, he, hc]
    simp [htc]
  · intro hguard
    unfold startPlayImpl
    rw [if_pos hguard]

theorem startPlayImpl_guards_witness :
    (startPlayImpl (some 400) examplePlayer =
      .error "Invariant: playUntil time must be after the current time") ∧
    (startPlayImpl none { examplePlayer with isPlaying := true } =
      .ok ({ examplePlayer with isPlaying := true }, [])) :=
  ⟨(startPlayImpl_guards examplePlayer 400 none 0 1000000000 500).1
      rfl rfl rfl rfl rfl (by decide),
   (startPlayImpl_guards { examplePlayer with isPlaying := true } 400 none
      0 1000000000 500).2 (Or.inl rfl)⟩

/-- While a `close` request is pending in `#nextState`, `#setState` ignores
every other request (helper for the amended C2). -/
theorem smRun_pending_close (evs : List SMEvent) (p : Player)
    (hpend : p.nextState = some .close) (hnd : SMEvent.deq ∉ evs) :
    (smRun evs p).nextState = some .close := by
  induction evs generalizing p with
  | nil => exact hpend
  | cons ev rest ih =>
    have hev : ev ≠ SMEvent.deq := fun h => hnd (by simp [h])
    have hrest : SMEvent.deq ∉ rest := fun h => hnd (List.mem_cons_of_mem _ h)
    cases ev with
    | request s =>
      have hstep : smStep (.request s) p = p := by
        simp [smStep, setStateReq, hpend]
      show (smRun rest (smStep (.request s) p)).nextState = some .close
      rw [hstep]
      exact ih p hpend hrest
    | deq => exact absurd rfl hev

/-- C2 (amended): while the `close` request is pending (it sits in
`#nextState`, not yet consumed by the run loop), no sequence of further
`#setState` requests replaces it, and the next run-loop iteration runs
`close`.  (The original claim — that no non-`close` state ever runs after
`close` was requested — fails once the run loop has consumed the request;
see the counterexample.) -/
theorem close_pending_never_overridden (evs : List SMEvent) (p : Player)
    (hpend : p.nextState = some .close) (hnd : SMEvent.deq ∉ evs) :
    (smRun evs p).nextState = some .close ∧ (smStep .deq p).state = .close := by
  refine ⟨smRun_pending_close evs p hpend hnd, ?_⟩
  simp [smStep, runStateStep, hpend]

theorem close_pending_never_overridden_witness :
    (smRun [.request .play, .request .seekBackfill]
        { examplePlayer with nextState := some .close }).nextState = some .close ∧
    (smStep .deq { examplePlayer with nextState := some .close }).state = .close :=
  close_pending_never_overridden [.request .play, .request .seekBackfill]
    { examplePlayer with nextState := some .close } rfl (by decide)

/-- C2 counterexample: after `close` is requested and the run loop consumes
it (`#nextState` becomes `undefined` while `#stateClose` runs), a later
`seekPlayback` call requests `seek-backfill`, `#setState` accepts it, and
the run loop runs a non-`close` state after `close` was requested — the
claim as stated is false. -/
theorem close_override_counterexample :
    (smRun [.request .close, .deq, .request .seekBackfill, .deq]
        examplePlayer).state = PName.seekBackfill ∧
    ((seekPlayback 999 (smRun [.request .close, .deq] examplePlayer)).toOption.map
        (fun r => (r.1.nextState, (smStep .deq r.1).state))) =
      some (some PName.seekBackfill, PName.seekBackfill) := by
  constructor
  · rfl
  · rfl

/-- A concrete problem manager used by witnesses. -/
def examplePM : PlayerProblemManager :=
  ⟨[("a", { severity := .warn, message := "w" })], none, 0⟩

/-- C8: with no mutation in between, consecutive `problems()` calls return
the identical array object (same allocation), and that array holds exactly
the registered problems; moreover a `removeProblem`/`removeProblems` call
that removes nothing leaves the manager (cache included) untouched. -/
theorem problems_identity (m : PlayerProblemManager) (h : m.WF) :
    (m.problems.2.problems).1 = m.problems.1 ∧
    (m.problems.2.problems).2 = m.problems.2 ∧
    (m.problems.1).vals = m.problemsById.map (·.2) ∧
    (∀ pid, m.hasProblem pid = false → m.removeProblem pid = (false, m)) ∧
    (∀ pred : String → PlayerProblem → Bool,
      (∀ pr ∈ m.problemsById, pred pr.1 pr.2 = false) →
      m.removeProblems pred = (false, m)) := by
  unfold PlayerProblemManager.WF at h
  refine ⟨?_, ?_, ?_, ?_, ?_⟩
  · rcases hc : m.cachedProblems with _ | a <;>
      simp [PlayerProblemManager.problems, hc]
  · rcases hc : m.cachedProblems with _ | a <;>
      simp [PlayerProblemManager.problems, hc]
  · rcases hc : m.cachedProblems with _ | a
    · simp [PlayerProblemManager.problems, hc]
    · rw [hc] at h
      simp [PlayerProblemManager.problems, hc, h]
  · intro pid hhas
    unfold PlayerProblemManager.hasProblem at hhas
    unfold PlayerProblemManager.removeProblem
    rw [hhas]
    rfl
  · intro pred hpred
    unfold PlayerProblemManager.removeProblems
    have : m.problemsById.any (fun e => pred e.1 e.2) = false := by
      rw [List.any_eq_false]
      intro x hx
      simp [hpred x hx]
    rw [this]
    rfl

theorem problems_identity_witness :
    (examplePM.problems.2.problems).1 = examplePM.problems.1 ∧
    (examplePM.problems.2.problems).2 = examplePM.problems.2 ∧
    (examplePM.problems.1).vals = examplePM.problemsById.map (·.2) ∧
    (∀ pid, examplePM.hasProblem pid = false →
      examplePM.removeProblem pid = (false, examplePM)) ∧
    (∀ pred : String → PlayerProblem → Bool,
      (∀ pr ∈ examplePM.problemsById, pred pr.1 pr.2 = false) →
      examplePM.removeProblems pred = (false, examplePM)) :=
  problems_identity examplePM trivial

/-- String append is left-cancellative (used to tell dedup warnings for
different topic names apart). -/
theorem string_append_right_inj (a b c : String) (h : a ++ b = a ++ c) :
    b = c := by
  have hd : (a ++ b).data = (a ++ c).data := by rw [h]
  rw [String.data_append, String.data_append] at hd
  exact String.ext (List.append_cancel_left hd)

/-- The dedup warning for topic name `n` (identified by its message). -/
def dupMsgFor (n : String) (pr : PlayerProblem) : Bool :=
  pr.message = "Inconsistent datatype for topic: " ++ n

theorem dupMsgFor_dupTopicProblem (n : String) (existing t : Topic) :
    dupMsgFor n (dupTopicProblem existing t) = decide (t.name = n) := by
  by_cases hn : t.name = n
  · simp [dupMsgFor, dupTopicProblem, hn]
  · have hne : ¬("Inconsistent datatype for topic: " ++ t.name =
        "Inconsistent datatype for topic: " ++ n) := fun hmsg =>
      hn (string_append_right_inj _ _ _ hmsg)
    simp [dupMsgFor, dupTopicProblem, hn, hne]

/-- The provider-topic half of the dedup loop: per name, the first-seen
topic wins and later duplicates are dropped. -/
theorem dedupGo_fst_filter (n : String) (rest : List Topic) :
    ∀ (uniq : List Topic) (probs : List PlayerProblem),
      ((dedupGo rest uniq probs).1.filter (fun t => t.name = n)) =
        uniq.filter (fun t => t.name = n) ++
          (if uniq.any (fun u => u.name = n) then []
           else ((rest.filter (fun t => t.name = n)).take 1)) := by
  induction rest with
  | nil =>
    intro uniq probs
    simp [dedupGo]
  | cons t rest ih =>
    intro uniq probs
    unfold dedupGo
    cases hfind : uniq.find? (fun u => u.name = t.name) with
    | some existing =>
      have hpred := List.find?_some hfind
      have hany : (uniq.any fun u => decide (u.name = t.name)) = true :=
        List.any_eq_true.mpr
          ⟨existing, List.mem_of_find?_eq_some hfind, by simpa using hpred⟩
      rw [ih]
      by_cases hn : t.name = n
      · subst hn
        simp [hany]
      · rw [List.filter_cons_of_neg (by simp [hn])]
    | none =>
      have hnone : ∀ u ∈ uniq, ¬(u.name = t.name) := by
        simpa using List.find?_eq_none.mp hfind
      have huniq : (uniq.any fun u => decide (u.name = t.name)) = false := by
        rw [List.any_eq_false]
        intro u hu
        simp [hnone u hu]
      rw [ih]
      by_cases hn : t.name = n
      · subst hn
        simp [huniq, List.filter_append, List.filter_cons]
      · rw [List.filter_append, List.filter_cons_of_neg (by simp [hn])]
        have happ : ((uniq ++ [t]).any fun u => decide (u.name = n)) =
            (uniq.any fun u => decide (u.name = n)) := by
          simp [hn]
        rw [happ, List.filter_cons_of_neg (by simp [hn])]
        simp

/-- The problem half of the dedup loop: one warning per later duplicate of
name `n`. -/
theorem dedupGo_snd_count (n : String) (rest : List Topic) :
    ∀ (uniq : List Topic) (probs : List PlayerProblem),
      ((dedupGo rest uniq probs).2.countP (dupMsgFor n)) =
        probs.countP (dupMsgFor n) +
          (if uniq.any (fun u => u.name = n) then
            (rest.filter (fun t => t.name = n)).length
           else (rest.filter (fun t => t.name = n)).length - 1) := by
  induction rest with
  | nil =>
    intro uniq probs
    simp [dedupGo]
  | cons t rest ih =>
    intro uniq probs
    unfold dedupGo
    cases hfind : uniq.find? (fun u => u.name = t.name) with
    | some existing =>
      have hpred := List.find?_some hfind
      have hany : (uniq.any fun u => decide (u.name = t.name)) = true :=
        List.any_eq_true.mpr
          ⟨existing, List.mem_of_find?_eq_some hfind, by simpa using hpred⟩
      rw [ih]
      by_cases hn : t.name = n
      · subst hn
        rw [List.filter_cons_of_pos (by simp)]
        simp [hany, List.countP_append, List.countP_cons, dupMsgFor_dupTopicProblem]
        omega
      · rw [List.filter_cons_of_neg (by simp [hn])]
        simp [List.countP_append, List.countP_cons, dupMsgFor_dupTopicProblem, hn]
    | none =>
      have hnone : ∀ u ∈ uniq, ¬(u.name = t.name) := by
        simpa using List.find?_eq_none.mp hfind
      have huniq : (uniq.any fun u => decide (u.name = t.name)) = false := by
        rw [List.any_eq_false]
        intro u hu
        simp [hnone u hu]
      rw [ih]
      by_cases hn : t.name = n
      · subst hn
        rw [List.filter_cons_of_pos (by simp)]
        simp [huniq]
      · have happ : ((uniq ++ [t]).any fun u => decide (u.name = n)) =
            (uniq.any fun u => decide (u.name = n)) := by
          simp [hn]
        rw [happ, List.filter_cons_of_neg (by simp [hn])]

/-- Every problem the dedup loop adds is a warning. -/
theorem dedupGo_warn (rest : List Topic) :
    ∀ (uniq : List Topic) (probs : List PlayerProblem),
      (∀ pr ∈ probs, pr.severity = .warn) →
      ∀ pr ∈ (dedupGo rest uniq probs).2, pr.severity = .warn := by
  induction rest with
  | nil =>
    intro uniq probs hp
    simpa [dedupGo] using hp
  | cons t rest ih =>
    intro uniq probs hp
    unfold dedupGo
    cases hfind : uniq.find? (fun u => u.name = t.name) with
    | some existing =>
      refine ih uniq (probs ++ [dupTopicProblem existing t]) ?_
      intro pr hpr
      rcases List.mem_append.mp hpr with hl | hr
      · exact hp pr hl
      · rcases List.mem_singleton.mp hr with rfl
        rfl
    | none => exact ih (uniq ++ [t]) probs hp

/-- C5: when the source's topic list holds exactly two topics with name `n`
(conflicting schema names), `#stateInitialize`'s dedup keeps only the
first-seen topic definition for `n`, pushes exactly one problem for that
duplicate name, and every problem pushed is a warning; the loop has no
throwing path, so no exception escapes. -/
theorem dedup_two_conflicting (ts : List Topic) (n : String)
    (h2 : (ts.filter (fun t => t.name = n)).length = 2) :
    (dedupTopics ts).1.filter (fun t => t.name = n) =
      (ts.filter (fun t => t.name = n)).take 1 ∧
    (dedupTopics ts).2.countP (dupMsgFor n) = 1 ∧
    ∀ pr ∈ (dedupTopics ts).2, pr.severity = .warn := by
  refine ⟨?_, ?_, ?_⟩
  · have h := dedupGo_fst_filter n ts [] []
    simpa [dedupTopics] using h
  · have h := dedupGo_snd_count n ts [] []
    rw [dedupTopics, h]
    simp [h2]
  · exact dedupGo_warn ts [] [] (by simp)

theorem dedup_two_conflicting_witness :
    (dedupTopics [⟨"/a", "A"⟩, ⟨"/a", "B"⟩]).1.filter (fun t => t.name = "/a") =
      (([⟨"/a", "A"⟩, ⟨"/a", "B"⟩] : List Topic).filter
        (fun t => t.name = "/a")).take 1 ∧
    (dedupTopics [⟨"/a", "A"⟩, ⟨"/a", "B"⟩]).2.countP (dupMsgFor "/a") = 1 ∧
    ∀ pr ∈ (dedupTopics [⟨"/a", "A"⟩, ⟨"/a", "B"⟩]).2, pr.severity = .warn :=
  dedup_two_conflicting [⟨"/a", "A"⟩, ⟨"/a", "B"⟩] "/a" (by decide)

/-- The keys of a `jsMapInsert` result: unchanged for an in-place update,
the new key appended otherwise. -/
theorem jsMapInsert_keys {β : Type} (k : String) (v : β) (m : List (String × β)) :
    (jsMapInsert k v m).map (·.1) =
      if m.any (fun e => e.1 = k) then m.map (·.1) else m.map (·.1) ++ [k] := by
  unfold jsMapInsert
  by_cases h : (m.any fun e => decide (e.1 = k)) = true
  · rw [if_pos h, if_pos h, List.map_map]
    apply List.map_congr_left
    intro e _
    by_cases he : e.1 = k
    · simp [he]
    · simp [he]
  · rw [if_neg h, if_neg h]
    simp

theorem jsMapInsert_keysNodup {β : Type} (k : String) (v : β)
    (m : List (String × β)) (h : keysNodup m) : keysNodup (jsMapInsert k v m) := by
  unfold keysNodup at *
  rw [jsMapInsert_keys]
  by_cases hc : (m.any fun e => decide (e.1 = k)) = true
  · rw [if_pos hc]
    exact h
  · rw [if_neg hc]
    have hk : k ∉ m.map (·.1) := by
      intro hmem
      obtain ⟨e, he, hek⟩ := List.mem_map.mp hmem
      exact hc (List.any_eq_true.mpr ⟨e, he, by simpa using hek⟩)
    simp [List.nodup_append, h, hk]

theorem jsMapOfList_keysNodup {β : Type} (l : List (String × β)) :
    keysNodup (jsMapOfList l) := by
  suffices h : ∀ acc : List (String × β), keysNodup acc →
      keysNodup (l.foldl (fun m e => jsMapInsert e.1 e.2 m) acc) from
    h [] (by simp [keysNodup])
  induction l with
  | nil => exact fun acc hacc => hacc
  | cons e rest ih =>
    intro acc hacc
    exact ih _ (jsMapInsert_keysNodup _ _ _ hacc)

theorem mapLookup_eq_some_mem {β : Type} {k : String} {m : List (String × β)}
    {v : β} (h : mapLookup k m = some v) : k ∈ m.map (·.1) := by
  unfold mapLookup at h
  cases hf : m.find? (fun e => decide (e.1 = k)) with
  | none => rw [hf] at h; simp at h
  | some f =>
    have hmem := List.mem_of_find?_eq_some hf
    have hfk : f.1 = k := by simpa using List.find?_some hf
    exact List.mem_map.mpr ⟨f, hmem, hfk⟩

theorem mapLookup_eq_none {β : Type} {k : String} {m : List (String × β)}
    (h : k ∉ m.map (·.1)) : mapLookup k m = none := by
  unfold mapLookup
  rw [List.find?_eq_none.mpr]
  · rfl
  · intro e he hek
    exact h (List.mem_map.mpr ⟨e, he, by simpa using hek⟩)

theorem mapLookup_isSome_of_mem {β : Type} {k : String} {m : List (String × β)}
    (h : k ∈ m.map (·.1)) : (mapLookup k m).isSome = true := by
  unfold mapLookup
  obtain ⟨e, he, hek⟩ := List.mem_map.mp h
  have hfs : (m.find? fun e' => decide (e'.1 = k)).isSome = true := by
    rw [List.find?_isSome]
    exact ⟨e, he, by simpa using hek⟩
  cases hf : m.find? (fun e' => decide (e'.1 = k)) with
  | none => rw [hf] at hfs; simp at hfs
  | some f => simp [hf]

/-- Lodash `isEqual` on two unique-keyed maps means they agree as partial
functions. -/
theorem isEqualMap_mapEquiv {β : Type} [DecidableEq β] (a b : List (String × β))
    (ha : keysNodup a) (h : isEqualMap a b = true) :
    mapEquiv a b := by
  unfold isEqualMap at h
  rw [Bool.and_eq_true] at h
  obtain ⟨hlen, hall⟩ := h
  have hlen' : a.length = b.length := by simpa using hlen
  have hall' : ∀ e ∈ a, mapLookup e.1 b = some e.2 := by
    intro e he
    have := List.all_eq_true.mp hall e he
    simpa using this
  have hsub : (a.map (·.1)) ⊆ (b.map (·.1)) := by
    intro k hk
    obtain ⟨e, he, hek⟩ := List.mem_map.mp hk
    subst hek
    exact mapLookup_eq_some_mem (hall' e he)
  have hperm : List.Perm (a.map (·.1)) (b.map (·.1)) :=
    (List.subperm_of_subset ha hsub).perm_of_length_le (by simp [hlen'])
  intro k
  cases hla : mapLookup k a with
  | none =>
    have hka : k ∉ a.map (·.1) := by
      intro hk
      have := mapLookup_isSome_of_mem (m := a) hk
      rw [hla] at this
      simp at this
    have hkb : k ∉ b.map (·.1) := fun hk => hka (hperm.mem_iff.mpr hk)
    rw [mapLookup_eq_none hkb]
  | some v =>
    unfold mapLookup at hla
    cases hf : a.find? (fun e => decide (e.1 = k)) with
    | none => rw [hf] at hla; simp at hla
    | some f =>
      rw [hf] at hla
      simp only [Option.map_some'] at hla
      have hmem := List.mem_of_find?_eq_some hf
      have hfk : f.1 = k := by simpa using List.find?_some hf
      have hb' := hall' f hmem
      rw [hfk, hla] at hb'
      exact hb'.symm

/-- The `allTopics` field after one `setSubscriptions` call. -/
theorem setSubscriptions_allTopics_eq (subs : List SubscribePayload) (p : Player) :
    (setSubscriptions subs p).1.allTopics =
      if (isEqualMap (deriveAllTopics subs) p.allTopics = true ∧
          isEqualMap (derivePreloadTopics subs) p.preloadTopics = true)
      then p.allTopics else deriveAllTopics subs := by
  unfold setSubscriptions
  by_cases h : (isEqualMap (deriveAllTopics subs) p.allTopics = true ∧
      isEqualMap (derivePreloadTopics subs) p.preloadTopics = true)
  · simp [h]
  · simp only [h, if_false]
    split
    · split
      · split <;> simp [setStateReq, apply_ite]
      · simp
    · simp

theorem setSubscriptions_allTopics_equiv (subs : List SubscribePayload)
    (p : Player) (hnd : keysNodup p.allTopics) :
    mapEquiv ((setSubscriptions subs p).1.allTopics) (deriveAllTopics subs) ∧
    keysNodup ((setSubscriptions subs p).1.allTopics) := by
  rw [setSubscriptions_allTopics_eq]
  by_cases h : (isEqualMap (deriveAllTopics subs) p.allTopics = true ∧
      isEqualMap (derivePreloadTopics subs) p.preloadTopics = true)
  · rw [if_pos h]
    have hda : keysNodup (deriveAllTopics subs) := jsMapOfList_keysNodup _
    have hequiv := isEqualMap_mapEquiv (deriveAllTopics subs) p.allTopics hda h.1
    exact ⟨fun k => (hequiv k).symm, hnd⟩
  · rw [if_neg h]
    exact ⟨fun k => rfl, jsMapOfList_keysNodup _⟩

theorem applyCalls_keysNodup (calls : List (List SubscribePayload)) (p : Player)
    (hnd : keysNodup p.allTopics) : keysNodup (applyCalls calls p).allTopics := by
  induction calls generalizing p with
  | nil => exact hnd
  | cons c rest ih =>
    simp only [applyCalls, List.foldl_cons]
    exact ih _ (setSubscriptions_allTopics_equiv c p hnd).2

/-- C4: over any sequence of `setSubscriptions` calls, the `allTopics`
selection the iterators and backfills read is the one derived from the last
call; and a call whose derived all-topics and preload-topics maps are
deep-equal (lodash `isEqual`) to the current ones only records the raw
subscription list and the metrics event — no iterator reset, no
`seek-backfill` transition, no block-loader update, no queued emission. -/
theorem setSubscriptions_last_call_and_noop (p : Player)
    (hnd : keysNodup p.allTopics) :
    (∀ (calls : List (List SubscribePayload)) (subs : List SubscribePayload),
        mapEquiv ((applyCalls (calls ++ [subs]) p).allTopics)
          (deriveAllTopics subs)) ∧
    (∀ subs : List SubscribePayload,
        isEqualMap (deriveAllTopics subs) p.allTopics = true →
        isEqualMap (derivePreloadTopics subs) p.preloadTopics = true →
        setSubscriptions subs p =
          ({ p with subscriptions := subs }, [.metricsSetSubscriptions subs])) := by
  constructor
  · intro calls subs
    have h1 : applyCalls (calls ++ [subs]) p =
        (setSubscriptions subs (applyCalls calls p)).1 := by
      simp [applyCalls, List.foldl_append]
    rw [h1]
    exact (setSubscriptions_allTopics_equiv subs _
      (applyCalls_keysNodup calls p hnd)).1
  · intro subs h1 h2
    unfold setSubscriptions
    simp [h1, h2]

theorem setSubscriptions_last_call_and_noop_witness :
    (∀ (calls : List (List SubscribePayload)) (subs : List SubscribePayload),
        mapEquiv ((applyCalls (calls ++ [subs]) examplePlayer).allTopics)
          (deriveAllTopics subs)) ∧
    (∀ subs : List SubscribePayload,
        isEqualMap (deriveAllTopics subs) examplePlayer.allTopics = true →
        isEqualMap (derivePreloadTopics subs) examplePlayer.preloadTopics = true →
        setSubscriptions subs examplePlayer =
          ({ examplePlayer with subscriptions := subs },
            [.metricsSetSubscriptions subs])) :=
  setSubscriptions_last_call_and_noop examplePlayer
    (by simp [keysNodup, examplePlayer])

theorem mem_streamMsgs {m : MessageEvent} {stream : List IteratorResult} :
    m ∈ streamMsgs stream ↔ IteratorResult.messageEvent m ∈ stream := by
  constructor
  · intro h
    obtain ⟨r, hr, hmr⟩ := List.mem_filterMap.mp h
    cases r with
    | messageEvent m2 =>
      simp only [msgOf, Option.some.injEq] at hmr
      subst hmr
      exact hr
    | problem cid pr => simp [msgOf] at hmr
    | stamp s => simp [msgOf] at hmr
  · intro h
    exact List.mem_filterMap.mpr ⟨_, h, rfl⟩

/-- `pausePlayback` never touches `currentTime` or `messages`, and always
leaves `isPlaying = false`. -/
theorem pausePlayback_fields (p : Player) :
    (pausePlayback p).1.currentTime = p.currentTime ∧
    (pausePlayback p).1.messages = p.messages ∧
    (pausePlayback p).1.isPlaying = false := by
  unfold pausePlayback
  by_cases h : p.isPlaying = false
  · simp [h]
  · rw [if_neg h]
    dsimp only
    by_cases hst : p.state = PName.play
    · simp [hst, setStateReq, apply_ite]
    · simp [hst]

theorem tickFinish_fields (endT : Nat) (msgs : List MessageEvent) (p : Player) :
    (tickFinish endT msgs p).1.currentTime = some endT ∧
    (tickFinish endT msgs p).1.messages = msgs := by
  unfold tickFinish
  cases hu : p.untilTime with
  | none => simp [hu]
  | some u =>
    simp only [hu]
    by_cases hle : u ≤ endT
    · rw [if_pos hle]
      exact ⟨((pausePlayback_fields _).1).trans rfl,
        ((pausePlayback_fields _).2.1).trans rfl⟩
    · rw [if_neg hle]
      exact ⟨rfl, rfl⟩

theorem tickFinish_pause (endT : Nat) (msgs : List MessageEvent) (p : Player)
    (u : Nat) (hu : p.untilTime = some u) (hle : u ≤ endT) :
    (tickFinish endT msgs p).1.isPlaying = false := by
  unfold tickFinish
  simp only [hu]
  rw [if_pos hle]
  exact (pausePlayback_fields _).2.2

/-- The batch collected by the `#tick` read loop is exactly the stream's
message events at-or-before the window end, in order, appended to what was
carried in. -/
theorem tickLoop_msgs (endT : Nat) (stream : List IteratorResult) :
    ∀ (acc : List MessageEvent) (probs : List (String × PlayerProblem)),
      stream.Pairwise resLE →
      (tickLoop endT stream acc probs).msgs =
        acc ++ (streamMsgs stream).filter (fun m => m.receiveTime ≤ endT) := by
  induction stream with
  | nil =>
    intro acc probs _
    simp [tickLoop, streamMsgs]
  | cons r rest ih =>
    intro acc probs hsort
    rw [List.pairwise_cons] at hsort
    obtain ⟨hr, hrest⟩ := hsort
    cases r with
    | problem cid prob =>
      simp only [tickLoop]
      rw [ih _ _ hrest]
      simp [streamMsgs, msgOf]
    | stamp st =>
      simp only [tickLoop]
      by_cases hle : endT ≤ st
      · rw [if_pos hle]
        have hnil : (streamMsgs (.stamp st :: rest)).filter
            (fun m => decide (m.receiveTime ≤ endT)) = [] := by
          rw [List.filter_eq_nil_iff]
          intro m hm
          have hm2 : m ∈ streamMsgs rest := by
            simpa [streamMsgs, msgOf] using hm
          have hlt : st < m.receiveTime := hr _ (mem_streamMsgs.mp hm2)
          simp only [decide_eq_true_eq]
          omega
        simp [hnil]
      · rw [if_neg hle]
        rw [ih _ _ hrest]
        simp [streamMsgs, msgOf]
    | messageEvent m =>
      simp only [tickLoop]
      have hcons : streamMsgs (.messageEvent m :: rest) = m :: streamMsgs rest := by
        simp [streamMsgs, msgOf]
      by_cases hlt : endT < m.receiveTime
      · rw [if_pos hlt]
        have hnil : (streamMsgs (.messageEvent m :: rest)).filter
            (fun x => decide (x.receiveTime ≤ endT)) = [] := by
          rw [hcons, List.filter_eq_nil_iff]
          intro x hx
          rcases List.mem_cons.mp hx with rfl | hx2
          · simp only [decide_eq_true_eq]
            omega
          · have hle2 : m.receiveTime ≤ x.receiveTime :=
              hr _ (mem_streamMsgs.mp hx2)
            simp only [decide_eq_true_eq]
            omega
        simp [hnil]
      · rw [if_neg hlt]
        rw [ih _ _ hrest]
        have hmle : m.receiveTime ≤ endT := Nat.not_lt.mp hlt
        rw [hcons, List.filter_cons_of_pos (by simpa using hmle)]
        simp

theorem tickRead_spec (endT : Nat) (acc : List MessageEvent) (p : Player)
    (stream : List IteratorResult) :
    ∃ p' rest effs, tickRead endT acc p (some stream) = .ok (p', rest, effs) ∧
      p'.currentTime = some endT ∧
      (∀ u, p.untilTime = some u → u ≤ endT → p'.isPlaying = false) ∧
      (stream.Pairwise resLE →
        p'.messages =
          acc ++ (streamMsgs stream).filter (fun m => m.receiveTime ≤ endT)) := by
  refine ⟨_, _, _, rfl, (tickFinish_fields _ _ _).1, ?_, ?_⟩
  · intro u hu hle
    exact tickFinish_pause _ _ _ u hu hle
  · intro hsort
    rw [(tickFinish_fields _ _ _).2]
    exact tickLoop_msgs endT stream acc [] hsort

theorem tickMain_spec (endT : Nat) (p : Player) (stream : List IteratorResult) :
    ∃ p' rest effs, tickMain endT p (some stream) = .ok (p', rest, effs) ∧
      p'.currentTime = some endT ∧
      (∀ u, p.untilTime = some u → u ≤ endT → p'.isPlaying = false) ∧
      (stream.Pairwise resLE →
        (∀ m, p.lastMessageEvent = some m → ∀ r ∈ stream, resLE (.messageEvent m) r) →
        p'.messages = (p.lastMessageEvent.toList ++ streamMsgs stream).filter
          (fun m => m.receiveTime ≤ endT)) := by
  cases hlm : p.lastMessageEvent with
  | none =>
    obtain ⟨p', rest, effs, heq, h1, h2, h3⟩ := tickRead_spec endT [] p stream
    refine ⟨p', rest, effs, ?_, h1, h2, ?_⟩
    · simpa [tickMain, hlm] using heq
    · intro hsort _
      rw [h3 hsort]
      simp
  | some m =>
    by_cases hlt : endT < m.receiveTime
    · refine ⟨(tickFinish endT [] p).1, some stream, (tickFinish endT [] p).2,
        ?_, (tickFinish_fields _ _ _).1, ?_, ?_⟩
      · simp [tickMain, hlm, hlt]
      · intro u hu hle
        exact tickFinish_pause _ _ _ u hu hle
      · intro hsort hlme
        rw [(tickFinish_fields _ _ _).2]
        symm
        rw [List.filter_eq_nil_iff]
        intro x hx
        rcases List.mem_append.mp hx with hx1 | hx2
        · have hxm : x = m := by simpa using hx1
          subst hxm
          simp only [decide_eq_true_eq]
          omega
        · have hle2 : m.receiveTime ≤ x.receiveTime :=
            hlme m rfl _ (mem_streamMsgs.mp hx2)
          simp only [decide_eq_true_eq]
          omega
    · obtain ⟨p', rest, effs, heq, h1, h2, h3⟩ :=
        tickRead_spec endT [m] { p with lastMessageEvent := none } stream
      refine ⟨p', rest, effs, ?_, h1, ?_, ?_⟩
      · simpa [tickMain, hlm, hlt] using heq
      · intro u hu hle
        exact h2 u hu hle
      · intro hsort _
        rw [h3 hsort]
        have hmle : m.receiveTime ≤ endT := Nat.not_lt.mp hlt
        simp [List.filter_cons, hmle]

/-- Full evaluation of a `#tick` call on a playing, initialized player:
it succeeds, `currentTime` becomes the clamped window end, the player
pauses exactly when the `playUntil` bound is reached, and — for a
well-ordered iterator stream — the outgoing batch is exactly the buffered
and streamed message events at-or-before the window end. -/
theorem tick_eval (tms rms : ℚ) (rng : Nat) (p : Player)
    (stream : List IteratorResult) (s e cur : Nat)
    (hplay : p.isPlaying = true) (hs : p.start = some s) (he : p.endTime = some e)
    (hcur : p.currentTime = some cur) :
    ∃ p' rest effs, tick tms rms rng p (some stream) = .ok (p', rest, effs) ∧
      p'.currentTime = some (clampTime (cur + rng) s (p.untilTime.getD e)) ∧
      (∀ u, p.untilTime = some u →
        u ≤ clampTime (cur + rng) s (p.untilTime.getD e) → p'.isPlaying = false) ∧
      (stream.Pairwise resLE →
        (∀ m, p.lastMessageEvent = some m → ∀ r ∈ stream, resLE (.messageEvent m) r) →
        (∀ st, p.lastStamp = some st →
          ∀ m ∈ p.lastMessageEvent.toList ++ streamMsgs stream, st < m.receiveTime) →
        p'.messages = (p.lastMessageEvent.toList ++ streamMsgs stream).filter
          (fun m => m.receiveTime ≤ clampTime (cur + rng) s (p.untilTime.getD e))) := by
  unfold tick
  rw [if_neg (by simp [hplay])]
  simp only [hs, he, hcur]
  cases hls : p.lastStamp with
  | some st =>
    dsimp only
    by_cases hse : clampTime (cur + rng) s (p.untilTime.getD e) ≤ st
    · rw [if_pos hse]
      refine ⟨_, _, _, rfl, (tickFinish_fields _ _ _).1, ?_, ?_⟩
      · intro u hu hle
        exact tickFinish_pause _ _ _ u hu hle
      · intro hsort hlme hlstamp
        rw [(tickFinish_fields _ _ _).2]
        symm
        rw [List.filter_eq_nil_iff]
        intro x hx
        have hstx : st < x.receiveTime := hlstamp st rfl x hx
        simp only [decide_eq_true_eq]
        omega
    · rw [if_neg hse]
      obtain ⟨p', rest, effs, heq, h1, h2, h3⟩ :=
        tickMain_spec (clampTime (cur + rng) s (p.untilTime.getD e))
          { p with start := some s, endTime := some e, currentTime := some cur,
                   lastTickMillis := some tms, lastRangeMillis := some rms,
                   lastStamp := none } stream
      refine ⟨p', rest, effs, heq, h1, ?_, ?_⟩
      · intro u hu hle
        exact h2 u hu hle
      · intro hsort hlme _
        rw [h3 hsort (fun m hm r hr => hlme m hm r hr)]
  | none =>
    dsimp only
    obtain ⟨p', rest, effs, heq, h1, h2, h3⟩ :=
      tickMain_spec (clampTime (cur + rng) s (p.untilTime.getD e))
        { p with start := some s, endTime := some e, currentTime := some cur,
                 lastTickMillis := some tms, lastRangeMillis := some rms,
                 lastStamp := none } stream
    refine ⟨p', rest, effs, heq, h1, ?_, ?_⟩
    · intro u hu hle
      exact h2 u hu hle
    · intro hsort hlme _
      rw [h3 hsort (fun m hm r hr => hlme m hm r hr)]

theorem clampTime_advance (cur s bound rng : Nat) (hs : s ≤ cur)
    (hb : cur < bound) (hr : 0 < rng) : cur < clampTime (cur + rng) s bound := by
  unfold clampTime
  omega

/-- C1: a play-loop `tick()` that completes with no error and no pending
transition moves `currentTime` to the computed window end — the previous
`currentTime` plus the smoothed range, clamped to
`[start, untilTime ?? end]` — which strictly advances it, and the batch set
for the next emission is exactly the iterator's message events with
`receiveTime` in the half-open window `(prevCurrentTime, newCurrentTime]`,
each once and in order.  The stream hypotheses say the forward iterator is
positioned past `currentTime`, time-ordered, and that stamps are sound
watermarks (no later message event at-or-before the stamped time). -/
theorem tick_window_and_batch (tms rms : ℚ) (rng : Nat) (p : Player)
    (stream : List IteratorResult) (s e cur : Nat)
    (hplay : p.isPlaying = true) (hs : p.start = some s) (he : p.endTime = some e)
    (hcur : p.currentTime = some cur) (hscur : s ≤ cur)
    (hbound : cur < p.untilTime.getD e) (hrng : 0 < rng)
    (hsort : stream.Pairwise resLE)
    (hpast : ∀ m ∈ p.lastMessageEvent.toList ++ streamMsgs stream, cur < m.receiveTime)
    (hlme : ∀ m, p.lastMessageEvent = some m → ∀ r ∈ stream, resLE (.messageEvent m) r)
    (hlstamp : ∀ st, p.lastStamp = some st →
      ∀ m ∈ p.lastMessageEvent.toList ++ streamMsgs stream, st < m.receiveTime) :
    ∃ p' rest effs, tick tms rms rng p (some stream) = .ok (p', rest, effs) ∧
      p'.currentTime = some (clampTime (cur + rng) s (p.untilTime.getD e)) ∧
      cur < clampTime (cur + rng) s (p.untilTime.getD e) ∧
      p'.messages = (p.lastMessageEvent.toList ++ streamMsgs stream).filter
        (fun m => cur < m.receiveTime ∧
          m.receiveTime ≤ clampTime (cur + rng) s (p.untilTime.getD e)) := by
  obtain ⟨p', rest, effs, heq, h1, _, h3⟩ :=
    tick_eval tms rms rng p stream s e cur hplay hs he hcur
  refine ⟨p', rest, effs, heq, h1,
    clampTime_advance cur s _ rng hscur hbound hrng, ?_⟩
  rw [h3 hsort hlme hlstamp]
  apply List.filter_congr
  intro m hm
  have hc := hpast m hm
  simp [hc]

/-- A playing player and a well-formed three-result stream used by the C1
witness. -/
def playingPlayer : Player :=
  { examplePlayer with isPlaying := true, state := .play }

def exampleStream : List IteratorResult :=
  [.messageEvent ⟨"/a", "A", 600, 0, 1⟩, .stamp 800,
   .messageEvent ⟨"/a", "A", 900, 0, 1⟩]

theorem tick_window_and_batch_witness :
    ∃ p' rest effs,
      tick 0 0 300 playingPlayer (some exampleStream) = .ok (p', rest, effs) ∧
      p'.currentTime =
        some (clampTime (500 + 300) 0 (playingPlayer.untilTime.getD 1000000000)) ∧
      500 < clampTime (500 + 300) 0 (playingPlayer.untilTime.getD 1000000000) ∧
      p'.messages =
        (playingPlayer.lastMessageEvent.toList ++ streamMsgs exampleStream).filter
          (fun m => 500 < m.receiveTime ∧ m.receiveTime ≤
            clampTime (500 + 300) 0 (playingPlayer.untilTime.getD 1000000000)) :=
  tick_window_and_batch 0 0 300 playingPlayer exampleStream 0 1000000000 500
    rfl rfl rfl rfl (by decide) (by decide) (by decide)
    (by decide)
    (by decide)
    (by intro m hm; exact Option.noConfusion hm)
    (by intro st hst; exact Option.noConfusion hst)

/-- C6: an accepted `playUntil(t)` (player not playing, no pending bound,
`currentTime < t ≤ end`) records `untilTime = t` and starts playing; and
every subsequent `tick` while that bound is set clamps its window end to at
most `t` and pauses playback (`isPlaying` becomes `false`) exactly in the
first tick whose resulting `currentTime` reaches `t` — whatever the speed
and elapsed wall time behind the range `rng`. -/
theorem playUntil_clamps_and_pauses (t : Nat) (p : Player) (s e cur : Nat)
    (hnp : p.isPlaying = false) (hnu : p.untilTime = none)
    (hs : p.start = some s) (he : p.endTime = some e)
    (hcur : p.currentTime = some cur) (hscur : s ≤ cur) (hct : cur < t)
    (hte : t ≤ e) :
    (∃ p1 effs, playUntil t p = .ok (p1, effs) ∧ p1.untilTime = some t ∧
      p1.isPlaying = true) ∧
    (∀ (q : Player) (s2 e2 cur2 : Nat) (tms rms : ℚ) (rng : Nat)
        (stream : List IteratorResult),
      q.isPlaying = true → q.start = some s2 → q.endTime = some e2 →
      q.currentTime = some cur2 → q.untilTime = some t → s2 ≤ cur2 → cur2 < t →
      ∃ p2 rest effs2, tick tms rms rng q (some stream) = .ok (p2, rest, effs2) ∧
        p2.currentTime = some (clampTime (cur2 + rng) s2 t) ∧
        clampTime (cur2 + rng) s2 t ≤ t ∧
        (t ≤ clampTime (cur2 + rng) s2 t → p2.isPlaying = false)) := by
  constructor
  · have hclamp : clampTime t s e = t := by
      unfold clampTime
      omega
    unfold playUntil startPlayImpl
    rw [if_neg (by simp [hnp, hnu, hs, he])]
    simp only [hs, he, hcur]
    rw [if_neg (by omega : ¬ t ≤ cur)]
    dsimp only
    split
    · exact ⟨_, _, rfl, by simp [setStateReq, apply_ite, hclamp],
        by simp [setStateReq, apply_ite]⟩
    · exact ⟨_, _, rfl, by simp [hclamp], by simp⟩
  · intro q s2 e2 cur2 tms rms rng stream hq hqs hqe hqc hqu hs2 hc2
    obtain ⟨p2, rest, effs2, heq, h1, h2, _⟩ :=
      tick_eval tms rms rng q stream s2 e2 cur2 hq hqs hqe hqc
    rw [hqu] at h1 h2
    simp only [Option.getD_some] at h1 h2
    refine ⟨p2, rest, effs2, heq, h1, by unfold clampTime; omega, ?_⟩
    intro hreach
    exact h2 t rfl hreach

theorem playUntil_clamps_and_pauses_witness :
    (∃ p1 effs, playUntil 1000 examplePlayer = .ok (p1, effs) ∧
      p1.untilTime = some 1000 ∧ p1.isPlaying = true) ∧
    (∀ (q : Player) (s2 e2 cur2 : Nat) (tms rms : ℚ) (rng : Nat)
        (stream : List IteratorResult),
      q.isPlaying = true → q.start = some s2 → q.endTime = some e2 →
      q.currentTime = some cur2 → q.untilTime = some 1000 → s2 ≤ cur2 →
      cur2 < 1000 →
      ∃ p2 rest effs2, tick tms rms rng q (some stream) = .ok (p2, rest, effs2) ∧
        p2.currentTime = some (clampTime (cur2 + rng) s2 1000) ∧
        clampTime (cur2 + rng) s2 1000 ≤ 1000 ∧
        (1000 ≤ clampTime (cur2 + rng) s2 1000 → p2.isPlaying = false)) :=
  playUntil_clamps_and_pauses 1000 examplePlayer 0 1000000000 500
    rfl rfl rfl rfl rfl (by decide) (by decide) (by decide)

end NewStudio
